import Mathlib

/-!
Verification of the batch job processor of the clueso-clone repository
(src/Clueso_Node_layer/src/services/batch-service.js) together with the
request-validation schema in src/Clueso_Node_layer/src/middlewares/validator.js.

The JavaScript service is embedded shallowly: every mutation of a batch job
becomes a pure function from `Batch` to `Batch`.  Timestamps are abstract
natural numbers (the code only ever writes `new Date().toISOString()`; no
property here depends on the concrete clock value, only on whether a field is
set).  The caller-supplied asynchronous processor is modelled as a function
from the attempt number (1-indexed) to the attempt's outcome, which captures
every deterministic interleaving of an effectful processor.  External,
cooperative cancellation is modelled by a schedule `cancelReq : Nat → Bool`:
`cancelReq k = true` means a `cancelBatch` call lands at the suspension
boundary before the loop inspects item `k` (the JS loop only observes
`batch.state` between items, and the stretch from the loop exit to
`finalizeBatch` is synchronous, so these boundaries are exactly the points at
which a cancellation becomes visible).
-/

namespace Clueso

/-- Batch and item states, after the `BatchState` object in batch-service.js.
The JS value `PARTIAL` is named `partialState` here because its JS name is a
reserved word in Lean. -/
inductive BState where
  | pending
  | processing
  | completed
  | failed
  | cancelled
  | partialState
  deriving DecidableEq, Repr

/-- An element of the `items` array handed to `createBatch`: the JS code
distinguishes plain string identifiers (`typeof item === 'string'`) from
objects carrying an `id` field plus an opaque payload. -/
inductive RawItem where
  | str (s : String)
  | obj (id : String) (payload : String)
  deriving DecidableEq, Repr

/-- `typeof item === 'string' ? item : item.id` (batch-service.js line 65). -/
def RawItem.itemId : RawItem → String
  | .str s => s
  | .obj i _ => i

/-- `typeof item === 'object' ? item : null` (batch-service.js line 66). -/
def RawItem.itemData : RawItem → Option RawItem
  | .str _ => none
  | .obj i p => some (.obj i p)

/-- One element of a job's `items` array (batch-service.js lines 63-73). -/
structure BatchItem where
  index : Nat
  id : String
  data : Option RawItem
  state : BState
  result : Option String
  error : Option String
  attempts : Nat
  startedAt : Option Nat
  completedAt : Option Nat
  deriving DecidableEq, Repr

/-- The `progress` record of a job (batch-service.js lines 74-81).  The JS
counters are mutated with `--`/`++`, so they are modelled as integers rather
than naturals: no silent truncation at zero. -/
structure Progress where
  total : Int
  completed : Int
  failed : Int
  pending : Int
  processing : Int
  percentComplete : Int
  deriving DecidableEq, Repr

/-- An entry of the job's `results` array (batch-service.js lines 164-168). -/
structure ResultEntry where
  index : Nat
  id : String
  result : String
  deriving DecidableEq, Repr

/-- An entry of the job's `errors` array (batch-service.js lines 197-202). -/
structure ErrorEntry where
  index : Nat
  id : String
  error : String
  attempts : Nat
  deriving DecidableEq, Repr

/-- A batch job (batch-service.js lines 55-85). -/
structure Batch where
  id : String
  state : BState
  operation : String
  createdAt : Nat
  updatedAt : Nat
  startedAt : Option Nat
  completedAt : Option Nat
  items : List BatchItem
  progress : Progress
  results : List ResultEntry
  errors : List ErrorEntry
  deriving DecidableEq, Repr

/-- The item record built for position `idx` of the submitted list
(batch-service.js lines 63-73). -/
def mkBatchItem (idx : Nat) (r : RawItem) : BatchItem :=
  { index := idx
    id := r.itemId
    data := r.itemData
    state := BState.pending
    result := none
    error := none
    attempts := 0
    startedAt := none
    completedAt := none }

/-- `createBatch` (batch-service.js lines 49-91), with the generated id and
the clock passed in as parameters.  Storing the job in the module-level map
is modelled separately at the store level. -/
def createBatch (batchId : String) (now : Nat) (items : List RawItem)
    (operation : String) : Batch :=
  { id := batchId
    state := BState.pending
    operation := operation
    createdAt := now
    updatedAt := now
    startedAt := none
    completedAt := none
    items := items.enum.map fun p => mkBatchItem p.1 p.2
    progress :=
      { total := (items.length : Int)
        completed := 0
        failed := 0
        pending := (items.length : Int)
        processing := 0
        percentComplete := 0 }
    results := []
    errors := [] }

/-- `lastError?.message || 'Unknown error'` (batch-service.js line 193): a
missing error and an empty message string both fall back to the default,
because the empty string is falsy in JS. -/
def errMessage : Option String → String
  | none => "Unknown error"
  | some m => if m = "" then "Unknown error" else m

/-- The exponential backoff delay, in milliseconds, slept before the next
attempt: `Math.pow(2, item.attempts) * 1000` (batch-service.js line 185),
where `item.attempts` is the 1-indexed number of the attempt that just
failed. -/
def backoffDelayMs (n : Nat) : Nat :=
  2 ^ n * 1000

/-- The retry loop of `processItem` (batch-service.js lines 152-189), written
with explicit fuel so that it is structurally recursive: the JS guard is
`item.attempts < maxRetries`, so the loop runs at most
`maxRetries - attempts` more times and `fuel` carries exactly that quantity.
`proc n` is the outcome of the n-th attempt (1-indexed), modelling the
caller-supplied effectful processor.  Returns the final attempt counter
together with the terminal outcome. -/
def retryLoopFuel (proc : Nat → Except String String) :
    Nat → Nat → Option String → Nat × Except String String
  | 0, attempts, lastError => (attempts, Except.error (errMessage lastError))
  | fuel + 1, attempts, _ =>
    match proc (attempts + 1) with
    | Except.ok r => (attempts + 1, Except.ok r)
    | Except.error e => retryLoopFuel proc fuel (attempts + 1) (some e)

/-- The retry loop entered with attempt counter `attempts` and cap
`maxRetries` (batch-service.js lines 152-189). -/
def retryLoop (maxRetries : Nat) (proc : Nat → Except String String)
    (attempts : Nat) (lastError : Option String) : Nat × Except String String :=
  retryLoopFuel proc (maxRetries - attempts) attempts lastError

/-- `Math.round(a / b)` for the nonnegative operands produced by
`updateProgress`: round half away from zero equals `⌊(2a + b) / (2b)⌋`. -/
def jsRoundDiv (a b : Int) : Int :=
  (2 * a + b) / (2 * b)

/-- `updateProgress` (batch-service.js lines 217-227): recompute
`percentComplete` and stamp `updatedAt`.  The function is only ever invoked
after an item settled, so `progress.total` is positive at every call site (in
JS a zero total would produce `NaN`). -/
def updateProgress (b : Batch) (now : Nat) : Batch :=
  { b with
    progress :=
      { b.progress with
        percentComplete :=
          jsRoundDiv (100 * (b.progress.completed + b.progress.failed)) b.progress.total }
    updatedAt := now }

/-- The entry of `processItem` (batch-service.js lines 138-148): mark the
item processing, stamp its `startedAt`, and move one unit of progress from
`pending` to `processing`. -/
def startItem (b : Batch) (i : Nat) (now : Nat) : Batch :=
  match b.items[i]? with
  | none => b
  | some it =>
    { b with
      items := b.items.set i { it with state := BState.processing, startedAt := some now }
      progress :=
        { b.progress with
          pending := b.progress.pending - 1
          processing := b.progress.processing + 1 }
      updatedAt := now }

/-- The success branch of `processItem` (batch-service.js lines 158-178):
record the result on the item, move one unit of progress from `processing`
to `completed`, append to `results`, and run `updateProgress`.  The final
attempt counter `att` is the value the JS loop left in `item.attempts`. -/
def completeItem (b : Batch) (i : Nat) (att : Nat) (r : String) (now : Nat) : Batch :=
  match b.items[i]? with
  | none => b
  | some it =>
    updateProgress
      { b with
        items := b.items.set i
          { it with
            state := BState.completed
            result := some r
            attempts := att
            completedAt := some now }
        progress :=
          { b.progress with
            processing := b.progress.processing - 1
            completed := b.progress.completed + 1 }
        results := b.results ++ [{ index := it.index, id := it.id, result := r }] }
      now

/-- The exhausted-retries branch of `processItem` (batch-service.js lines
192-211): record the last error message on the item, move one unit of
progress from `processing` to `failed`, append to `errors`, and run
`updateProgress`. -/
def failItem (b : Batch) (i : Nat) (att : Nat) (e : String) (now : Nat) : Batch :=
  match b.items[i]? with
  | none => b
  | some it =>
    updateProgress
      { b with
        items := b.items.set i
          { it with
            state := BState.failed
            error := some e
            attempts := att
            completedAt := some now }
        progress :=
          { b.progress with
            processing := b.progress.processing - 1
            failed := b.progress.failed + 1 }
        errors := b.errors ++ [{ index := it.index, id := it.id, error := e, attempts := att }] }
      now

/-- `processItem` (batch-service.js lines 137-212) acting on the item at
position `i`: start the item, run the retry loop from the item's current
attempt counter, then record the terminal outcome.  `proc id data n` is the
outcome of the n-th attempt of the caller-supplied processor on that item. -/
def processItem (maxRetries : Nat)
    (proc : String → Option RawItem → Nat → Except String String)
    (b : Batch) (i : Nat) (now : Nat) : Batch :=
  let b1 := startItem b i now
  match b1.items[i]? with
  | none => b1
  | some it =>
    match retryLoop maxRetries (proc it.id it.data) it.attempts none with
    | (att, Except.ok r) => completeItem b1 i att r now
    | (att, Except.error e) => failItem b1 i att e now

/-- The state change performed by `cancelBatch` once the job has been looked
up (batch-service.js lines 295-305): completed and failed jobs are left
untouched (the call reports `false`), every other job is flipped to
cancelled. -/
def cancelCore (b : Batch) (now : Nat) : Bool × Batch :=
  if b.state = BState.completed ∨ b.state = BState.failed then (false, b)
  else (true, { b with state := BState.cancelled, updatedAt := now })

/-- `finalizeBatch` (batch-service.js lines 232-253): stamp `completedAt`,
keep an externally set cancelled state, otherwise map the settled counters
to completed / failed / partial. -/
def finalizeBatch (b : Batch) (now : Nat) : Batch :=
  let b1 := { b with completedAt := some now, updatedAt := now }
  if b1.state = BState.cancelled then b1
  else if b1.progress.failed = 0 then { b1 with state := BState.completed }
  else if b1.progress.completed = 0 then { b1 with state := BState.failed }
  else { b1 with state := BState.partialState }

/-- The `batch.state = PROCESSING` / `startedAt` update at the top of
`processBatch` (batch-service.js lines 110-112). -/
def beginProcessing (b : Batch) (now : Nat) : Batch :=
  { b with state := BState.processing, startedAt := some now, updatedAt := now }

/-- The sequential item loop of `processBatch` (batch-service.js lines
118-126) over the list `ks` of remaining item positions.  At the boundary
before each item the external cancellation schedule may fire (a concurrent
`cancelBatch` call, modelled by `cancelCore`), after which the loop performs
the JS check `if (batch.state === CANCELLED) break`. -/
def runItems (maxRetries : Nat)
    (proc : String → Option RawItem → Nat → Except String String)
    (cancelReq : Nat → Bool) (now : Nat) : Batch → List Nat → Batch
  | b, [] => b
  | b, k :: ks =>
    let b1 := if cancelReq k then (cancelCore b now).2 else b
    if b1.state = BState.cancelled then b1
    else runItems maxRetries proc cancelReq now (processItem maxRetries proc b1 k now) ks

/-- `processBatch` (batch-service.js lines 100-132) on a job already looked
up from the store: a non-pending job is rejected; otherwise the job is moved
to processing and its items are driven strictly sequentially (positions
`0..n-1`) with the default retry cap 3, a cancellation arriving during the
last item's flight is observed by `finalizeBatch` (schedule position `n`),
and the job is finalized. -/
def processBatch (proc : String → Option RawItem → Nat → Except String String)
    (cancelReq : Nat → Bool) (b : Batch) (now : Nat) : Except String Batch :=
  if b.state = BState.pending then
    let b1 := beginProcessing b now
    let b2 := runItems 3 proc cancelReq now b1 (List.range b1.items.length)
    let b3 := if cancelReq b1.items.length then (cancelCore b2 now).2 else b2
    Except.ok (finalizeBatch b3 now)
  else
    Except.error ("Batch " ++ b.id ++ " is not in pending state")

/-- The module-level `batchJobs` Map, modelled as an association list from
batch id to job. -/
abbrev Store := List (String × Batch)

/-- `batchJobs.get(batchId)` (the lookup used throughout batch-service.js). -/
def storeGet (s : Store) (batchId : String) : Option Batch :=
  (s.find? fun p => p.1 == batchId).map Prod.snd

/-- `batchJobs.set(batchId, batch)`: replace an existing binding, otherwise
append. -/
def storeSet (s : Store) (batchId : String) (b : Batch) : Store :=
  if s.any (fun p => p.1 == batchId) then
    s.map fun p => if p.1 == batchId then (batchId, b) else p
  else
    s ++ [(batchId, b)]

/-- `cancelBatch` (batch-service.js lines 291-306): a missing id returns
`false` without touching the store; otherwise the job-level cancellation
logic of `cancelCore` runs and a mutated job is written back. -/
def cancelBatch (s : Store) (batchId : String) (now : Nat) : Bool × Store :=
  match storeGet s batchId with
  | none => (false, s)
  | some b =>
    match cancelCore b now with
    | (false, _) => (false, s)
    | (true, b2) => (true, storeSet s batchId b2)

/-- A fragment of JSON sufficient for the request bodies validated by
validator.js. -/
inductive JVal where
  | null
  | str (s : String)
  | num (n : Int)
  | bool (b : Bool)
  | arr (xs : List JVal)
  | obj (fields : List (String × JVal))

/-- Property access `value[propName]` on a JS object: an absent key is
`undefined`, modelled as `none`. -/
def jGet : JVal → String → Option JVal
  | .obj fields, k => (fields.find? fun p => p.1 == k).map Prod.snd
  | _, _ => none

/-- `typeValidators.string` (validator.js line 30). -/
def isJString : JVal → Bool
  | .str _ => true
  | _ => false

/-- `typeValidators.array` (validator.js line 33). -/
def isJArray : JVal → Bool
  | .arr _ => true
  | _ => false

/-- `typeValidators.object` (validator.js line 34): a non-null, non-array
object. -/
def isJObject : JVal → Bool
  | .obj _ => true
  | _ => false

/-- `validateValue` (validator.js lines 47-159) applied to the schema of a
single element of `sessions` — `{ type: 'string' }` (validator.js line 340).
An absent or null element passes, because the element schema carries no
`required` flag. -/
def validateSessionElem (v : JVal) (path : String) : List String :=
  match v with
  | JVal.null => []
  | v => if isJString v then [] else [path ++ " must be of type string"]

/-- `validateValue` (validator.js lines 47-159) applied to the schema of the
`sessions` property of `schemas.batchProcess.body` (validator.js lines
335-341): required, type array, `minItems: 1`, `maxItems: 50`, elements of
type string.  The input is the looked-up property value (`none` when the key
is absent, i.e. `undefined` in JS). -/
def validateSessions (v : Option JVal) : List String :=
  match v with
  | none => ["sessions is required"]
  | some JVal.null => ["sessions is required"]
  | some (JVal.arr xs) =>
    (if xs.length < 1 then ["sessions must have at least 1 items"] else [])
      ++ (if xs.length > 50 then ["sessions must have at most 50 items"] else [])
      ++ xs.enum.flatMap fun p =>
          validateSessionElem p.2 ("sessions[" ++ toString p.1 ++ "]")
  | some _ => ["sessions must be of type array"]

/-- `validateValue` applied to the schema of the optional `options` property
— `{ type: 'object' }` (validator.js line 342). -/
def validateOptions (v : Option JVal) : List String :=
  match v with
  | none => []
  | some JVal.null => []
  | some v => if isJObject v then [] else ["options must be of type object"]

/-- `validateValue` (validator.js lines 47-159) applied to the whole
`schemas.batchProcess.body` schema (validator.js lines 331-345): type check
first (stopping on mismatch), then the `properties` checks in declaration
order, then the object-level `required: ['sessions']` check (which in JS only
fires on `undefined`, not on `null`). -/
def validateBatchBody (body : JVal) : List String :=
  if isJObject body then
    validateSessions (jGet body "sessions")
      ++ validateOptions (jGet body "options")
      ++ (match jGet body "sessions" with
          | none => ["sessions is required"]
          | some _ => [])
  else ["value must be of type object"]

/-- The JSON values accepted as `sessions` elements read back as submitted
items: after successful validation every element is a string (or a null that
the element schema lets through and the model drops). -/
def toRawItems (xs : List JVal) : List RawItem :=
  xs.filterMap fun v =>
    match v with
    | JVal.str s => some (RawItem.str s)
    | _ => none

/-- Modelled from the spec: the batch create route
(`src/routes/v1/batch-routes.js`, which is not among the sources — only the
validation schema and `createBatch` are) applies the `batchProcess`
validation schema to the request body and, only when validation reports no
errors, calls `createBatch` on the submitted session list and stores the
job; on validation errors it rejects synchronously with the error list (the
spec's `InvalidArgument` case) and the job store is left untouched. -/
def createEndpoint (s : Store) (body : JVal) (batchId : String) (now : Nat) :
    Except (List String) Batch × Store :=
  match validateBatchBody body with
  | [] =>
    let items :=
      match jGet body "sessions" with
      | some (JVal.arr xs) => toRawItems xs
      | _ => []
    let b := createBatch batchId now items "process"
    (Except.ok b, storeSet s batchId b)
  | errs => (Except.error errs, s)

/-- An item exactly as `createBatch` built it, not yet touched by the loop. -/
def FreshItem (it : BatchItem) : Prop :=
  it.state = BState.pending ∧ it.result = none ∧ it.error = none ∧ it.attempts = 0

/-- An item on which `processItem` has reached a terminal outcome under the
retry cap `cap`. -/
def SettledItem (cap : Nat) (it : BatchItem) : Prop :=
  (it.state = BState.completed ∨ it.state = BState.failed)
    ∧ it.attempts ≤ cap
    ∧ (it.state = BState.completed → it.result.isSome = true ∧ it.error = none)
    ∧ (it.state = BState.failed → it.error.isSome = true ∧ it.result = none)

/-- The per-item exclusivity property of the spec: a terminal item carries
exactly the matching one of `result`/`error`, a non-terminal item carries
neither. -/
def itemExcl (it : BatchItem) : Prop :=
  (it.state = BState.completed → it.result.isSome = true ∧ it.error = none)
    ∧ (it.state = BState.failed → it.error.isSome = true ∧ it.result = none)
    ∧ (it.state ≠ BState.completed ∧ it.state ≠ BState.failed →
        it.result = none ∧ it.error = none)

/-- The progress counters partition the total, and the total is the length
of the item list. -/
def progressPartition (b : Batch) : Prop :=
  b.progress.completed + b.progress.failed + b.progress.pending + b.progress.processing
      = b.progress.total
    ∧ b.progress.total = (b.items.length : Int)

/-- The invariant the processing loop maintains at the boundary before item
`k`: the first `k` items are settled, the rest are untouched, and the
`completed`/`failed` counters and the `results`/`errors` collections agree
with the item states. -/
structure LoopInv (cap : Nat) (b : Batch) (k : Nat) : Prop where
  k_le : k ≤ b.items.length
  settled : ∀ i it, b.items[i]? = some it → i < k → SettledItem cap it
  fresh : ∀ i it, b.items[i]? = some it → k ≤ i → FreshItem it
  completed_eq :
    b.progress.completed = ((b.items.countP fun it => it.state == BState.completed : Nat) : Int)
  failed_eq :
    b.progress.failed = ((b.items.countP fun it => it.state == BState.failed : Nat) : Int)
  results_len : b.results.length = b.items.countP fun it => it.state == BState.completed
  errors_len : b.errors.length = b.items.countP fun it => it.state == BState.failed

/-- Replacing the element at a valid position shifts `countP` by the change
at that position. -/
theorem countP_set (p : BatchItem → Bool) :
    ∀ (l : List BatchItem) (i : Nat) (x y : BatchItem), l[i]? = some y →
      (l.set i x).countP p + (if p y then 1 else 0)
        = l.countP p + (if p x then 1 else 0) := by
  intro l
  induction l with
  | nil => intro i x y h; simp at h
  | cons a as ih =>
    intro i x y h
    cases i with
    | zero =>
      simp only [List.getElem?_cons_zero, Option.some.injEq] at h
      subst h
      simp only [List.set_cons_zero, List.countP_cons]
      omega
    | succ n =>
      simp only [List.getElem?_cons_succ] at h
      simp only [List.set_cons_succ, List.countP_cons]
      have := ih n x y h
      omega

/-- The retry loop's final attempt counter lies between the entry counter
and the entry counter plus the available fuel. -/
theorem retryLoopFuel_bounds (proc : Nat → Except String String) :
    ∀ (fuel a : Nat) (e : Option String),
      a ≤ (retryLoopFuel proc fuel a e).1 ∧ (retryLoopFuel proc fuel a e).1 ≤ a + fuel := by
  intro fuel
  induction fuel with
  | zero => intro a e; simp [retryLoopFuel]
  | succ f ih =>
    intro a e
    simp only [retryLoopFuel]
    cases proc (a + 1) with
    | ok r => simp
    | error err =>
      show a ≤ (retryLoopFuel proc f (a + 1) (some err)).1
        ∧ (retryLoopFuel proc f (a + 1) (some err)).1 ≤ a + (f + 1)
      have := ih (a + 1) (some err)
      omega

/-- The attempt counter of the JS retry loop never exceeds the cap: entering
with `attempts ≤ maxRetries` it both starts and ends within the cap, and
since it only ever increments by one, every intermediate value is sandwiched
between the two bounds proved here. -/
theorem retryLoop_bounds (maxRetries : Nat) (proc : Nat → Except String String)
    (attempts : Nat) (e : Option String) (h : attempts ≤ maxRetries) :
    attempts ≤ (retryLoop maxRetries proc attempts e).1
      ∧ (retryLoop maxRetries proc attempts e).1 ≤ maxRetries := by
  have hb := retryLoopFuel_bounds proc (maxRetries - attempts) attempts e
  unfold retryLoop
  omega

/-- Every item built by `createBatch` is untouched. -/
theorem createBatch_items_fresh (batchId : String) (now : Nat) (items : List RawItem)
    (operation : String) :
    ∀ it ∈ (createBatch batchId now items operation).items, FreshItem it := by
  intro it hmem
  simp only [createBatch, List.mem_map] at hmem
  obtain ⟨p, hp, rfl⟩ := hmem
  simp [mkBatchItem, FreshItem]

/-- A freshly created job satisfies the loop invariant at position 0. -/
theorem createBatch_loopInv (cap : Nat) (batchId : String) (now : Nat)
    (items : List RawItem) (operation : String) :
    LoopInv cap (createBatch batchId now items operation) 0 := by
  have hfresh := createBatch_items_fresh batchId now items operation
  have hzero_c :
      ((createBatch batchId now items operation).items.countP
        fun it => it.state == BState.completed) = 0 := by
    rw [List.countP_eq_zero]
    intro it hmem
    have := (hfresh it hmem).1
    simp [this]
  have hzero_f :
      ((createBatch batchId now items operation).items.countP
        fun it => it.state == BState.failed) = 0 := by
    rw [List.countP_eq_zero]
    intro it hmem
    have := (hfresh it hmem).1
    simp [this]
  refine ⟨Nat.zero_le _, ?_, ?_, ?_, ?_, ?_, ?_⟩
  · intro i it _ hi; omega
  · intro i it hget _
    exact hfresh it (List.getElem?_mem hget)
  · rw [hzero_c]; simp [createBatch]
  · rw [hzero_f]; simp [createBatch]
  · rw [hzero_c]; simp [createBatch]
  · rw [hzero_f]; simp [createBatch]

/-- `beginProcessing` touches only `state`, `startedAt` and `updatedAt`, so
the loop invariant carries over. -/
theorem beginProcessing_loopInv (cap : Nat) (b : Batch) (k : Nat) (now : Nat)
    (h : LoopInv cap b k) : LoopInv cap (beginProcessing b now) k :=
  ⟨h.k_le, h.settled, h.fresh, h.completed_eq, h.failed_eq, h.results_len, h.errors_len⟩

/-- `cancelCore` touches only `state` and `updatedAt`, so the loop invariant
carries over. -/
theorem cancelCore_loopInv (cap : Nat) (b : Batch) (k : Nat) (now : Nat)
    (h : LoopInv cap b k) : LoopInv cap ((cancelCore b now).2) k := by
  by_cases hc : b.state = BState.completed ∨ b.state = BState.failed
  · simpa [cancelCore, hc] using h
  · simp only [cancelCore, hc, if_false]
    exact ⟨h.k_le, h.settled, h.fresh, h.completed_eq, h.failed_eq, h.results_len, h.errors_len⟩

/-- One `processItem` call on the boundary item advances the loop invariant
by one position, and touches neither the job-level state nor the length of
the item list. -/
theorem processItem_step (cap : Nat)
    (proc : String → Option RawItem → Nat → Except String String)
    (b : Batch) (k : Nat) (now : Nat)
    (hInv : LoopInv cap b k) (hk : k < b.items.length) :
    LoopInv cap (processItem cap proc b k now) (k + 1)
      ∧ (processItem cap proc b k now).state = b.state
      ∧ (processItem cap proc b k now).items.length = b.items.length := by
  obtain ⟨itk, hitk⟩ : ∃ it, b.items[k]? = some it :=
    ⟨_, List.getElem?_eq_getElem hk⟩
  obtain ⟨hst, hres, herr, hatt⟩ := hInv.fresh k itk hitk (Nat.le_refl k)
  have hS : startItem b k now
      = { b with
          items := b.items.set k { itk with state := BState.processing, startedAt := some now }
          progress :=
            { b.progress with
              pending := b.progress.pending - 1
              processing := b.progress.processing + 1 }
          updatedAt := now } := by
    simp [startItem, hitk]
  have hSk : (startItem b k now).items[k]?
      = some { itk with state := BState.processing, startedAt := some now } := by
    rw [hS]
    simp [List.getElem?_set, hk]
  have hPI : processItem cap proc b k now
      = match retryLoop cap (proc itk.id itk.data) 0 none with
        | (a2, Except.ok r) => completeItem (startItem b k now) k a2 r now
        | (a2, Except.error e) => failItem (startItem b k now) k a2 e now := by
    simp only [processItem, hSk]
    rw [show ({ itk with state := BState.processing, startedAt := some now } : BatchItem).attempts
          = 0 from hatt]
  rcases hr : retryLoop cap (proc itk.id itk.data) 0 none with ⟨att, out⟩
  have hatt_le : att ≤ cap := by
    have hb := retryLoop_bounds cap (proc itk.id itk.data) 0 none (Nat.zero_le cap)
    rw [hr] at hb
    exact hb.2
  rw [hr] at hPI
  cases out with
  | ok r =>
    have hPIok : processItem cap proc b k now
        = completeItem (startItem b k now) k att r now := hPI
    have hE : completeItem (startItem b k now) k att r now
        = updateProgress
            { b with
              items := b.items.set k
                { itk with
                  state := BState.completed
                  startedAt := some now
                  result := some r
                  attempts := att
                  completedAt := some now }
              progress :=
                { b.progress with
                  pending := b.progress.pending - 1
                  processing := b.progress.processing + 1 - 1
                  completed := b.progress.completed + 1 }
              results := b.results ++ [{ index := itk.index, id := itk.id, result := r }]
              updatedAt := now } now := by
      rw [hS]
      simp [completeItem, List.getElem?_set, hk, List.set_set]
    rw [hPIok, hE]
    set itC : BatchItem :=
      { itk with
        state := BState.completed
        startedAt := some now
        result := some r
        attempts := att
        completedAt := some now } with hitC
    have hcount := countP_set (fun it => it.state == BState.completed) b.items k itC itk hitk
    have hcountf := countP_set (fun it => it.state == BState.failed) b.items k itC itk hitk
    rw [show ((fun it => it.state == BState.completed) itk) = false by simp [hst]] at hcount
    rw [show ((fun it => it.state == BState.completed) itC) = true by simp [hitC]] at hcount
    rw [show ((fun it => it.state == BState.failed) itk) = false by simp [hst]] at hcountf
    rw [show ((fun it => it.state == BState.failed) itC) = false by simp [hitC]] at hcountf
    simp at hcount hcountf
    refine ⟨⟨?_, ?_, ?_, ?_, ?_, ?_, ?_⟩, ?_, ?_⟩
    · simp only [updateProgress, List.length_set]
      omega
    · intro i it hget hi
      simp only [updateProgress, List.getElem?_set] at hget
      by_cases hik : k = i
      · subst hik
        simp only [if_pos rfl, hk, if_true, Option.some.injEq] at hget
        subst hget
        refine ⟨Or.inl rfl, hatt_le, ?_, ?_⟩
        · intro _; simp [hitC, herr]
        · intro hcon; simp [hitC] at hcon
      · simp only [if_neg hik] at hget
        exact hInv.settled i it hget (by omega)
    · intro i it hget hi
      simp only [updateProgress, List.getElem?_set] at hget
      rw [if_neg (by omega : ¬ k = i)] at hget
      exact hInv.fresh i it hget (by omega)
    · have hbase := hInv.completed_eq
      simp only [updateProgress]
      omega
    · have hbase := hInv.failed_eq
      simp only [updateProgress]
      omega
    · have hbase := hInv.results_len
      simp only [updateProgress, List.length_append, List.length_singleton]
      omega
    · have hbase := hInv.errors_len
      simp only [updateProgress]
      omega
    · simp [updateProgress]
    · simp [updateProgress, List.length_set]
  | error e =>
    have hPIerr : processItem cap proc b k now
        = failItem (startItem b k now) k att e now := hPI
    have hE : failItem (startItem b k now) k att e now
        = updateProgress
            { b with
              items := b.items.set k
                { itk with
                  state := BState.failed
                  startedAt := some now
                  error := some e
                  attempts := att
                  completedAt := some now }
              progress :=
                { b.progress with
                  pending := b.progress.pending - 1
                  processing := b.progress.processing + 1 - 1
                  failed := b.progress.failed + 1 }
              errors := b.errors ++ [{ index := itk.index, id := itk.id, error := e, attempts := att }]
              updatedAt := now } now := by
      rw [hS]
      simp [failItem, List.getElem?_set, hk, List.set_set]
    rw [hPIerr, hE]
    set itF : BatchItem :=
      { itk with
        state := BState.failed
        startedAt := some now
        error := some e
        attempts := att
        completedAt := some now } with hitF
    have hcount := countP_set (fun it => it.state == BState.completed) b.items k itF itk hitk
    have hcountf := countP_set (fun it => it.state == BState.failed) b.items k itF itk hitk
    rw [show ((fun it => it.state == BState.completed) itk) = false by simp [hst]] at hcount
    rw [show ((fun it => it.state == BState.completed) itF) = false by simp [hitF]] at hcount
    rw [show ((fun it => it.state == BState.failed) itk) = false by simp [hst]] at hcountf
    rw [show ((fun it => it.state == BState.failed) itF) = true by simp [hitF]] at hcountf
    simp at hcount hcountf
    refine ⟨⟨?_, ?_, ?_, ?_, ?_, ?_, ?_⟩, ?_, ?_⟩
    · simp only [updateProgress, List.length_set]
      omega
    · intro i it hget hi
      simp only [updateProgress, List.getElem?_set] at hget
      by_cases hik : k = i
      · subst hik
        simp only [if_pos rfl, hk, if_true, Option.some.injEq] at hget
        subst hget
        refine ⟨Or.inr rfl, hatt_le, ?_, ?_⟩
        · intro hcon; simp [hitF] at hcon
        · intro _; simp [hitF, hres]
      · simp only [if_neg hik] at hget
        exact hInv.settled i it hget (by omega)
    · intro i it hget hi
      simp only [updateProgress, List.getElem?_set] at hget
      rw [if_neg (by omega : ¬ k = i)] at hget
      exact hInv.fresh i it hget (by omega)
    · have hbase := hInv.completed_eq
      simp only [updateProgress]
      omega
    · have hbase := hInv.failed_eq
      simp only [updateProgress]
      omega
    · have hbase := hInv.results_len
      simp only [updateProgress]
      omega
    · have hbase := hInv.errors_len
      simp only [updateProgress, List.length_append, List.length_singleton]
      omega
    · simp [updateProgress]
    · simp [updateProgress, List.length_set]

/-- Primitive facts about `cancelCore`: it never touches the items, the
progress counters, or the result collections. -/
theorem cancelCore_fields (b : Batch) (now : Nat) :
    ((cancelCore b now).2).items = b.items
      ∧ ((cancelCore b now).2).progress = b.progress
      ∧ ((cancelCore b now).2).results = b.results
      ∧ ((cancelCore b now).2).errors = b.errors
      ∧ ((cancelCore b now).2).completedAt = b.completedAt := by
  by_cases hc : b.state = BState.completed ∨ b.state = BState.failed <;>
    simp [cancelCore, hc]

/-- Running the loop over positions `k, k+1, ..., k+m-1` with an arbitrary
external cancellation schedule: the invariant moves to some boundary `k2`,
and unless the run ends cancelled it reaches the far end with the job state
untouched. -/
theorem runItems_inv (cap : Nat)
    (proc : String → Option RawItem → Nat → Except String String)
    (cancelReq : Nat → Bool) (now : Nat) :
    ∀ (m k : Nat) (b : Batch), LoopInv cap b k → k + m ≤ b.items.length →
      ∃ k2, k ≤ k2 ∧ k2 ≤ k + m
        ∧ LoopInv cap (runItems cap proc cancelReq now b (List.range' k m)) k2
        ∧ (runItems cap proc cancelReq now b (List.range' k m)).items.length = b.items.length
        ∧ ((runItems cap proc cancelReq now b (List.range' k m)).state ≠ BState.cancelled →
            k2 = k + m ∧ (runItems cap proc cancelReq now b (List.range' k m)).state = b.state) := by
  intro m
  induction m with
  | zero =>
    intro k b hInv hlen
    exact ⟨k, Nat.le_refl k, by omega, hInv, rfl, fun _ => ⟨rfl, rfl⟩⟩
  | succ m ih =>
    intro k b hInv hlen
    rw [show List.range' k (m + 1) = k :: List.range' (k + 1) m from List.range'_succ k m 1]
    simp only [runItems]
    by_cases hcr : cancelReq k = true
    · rw [if_pos hcr]
      by_cases hcanc : ((cancelCore b now).2).state = BState.cancelled
      · simp only [hcanc, if_pos rfl]
        refine ⟨k, Nat.le_refl k, by omega, cancelCore_loopInv cap b k now hInv, ?_, ?_⟩
        · exact congrArg List.length (cancelCore_fields b now).1
        · intro hne; exact absurd hcanc hne
      · have hb1 : (cancelCore b now).2 = b := by
          by_cases hc : b.state = BState.completed ∨ b.state = BState.failed
          · simp [cancelCore, hc]
          · simp [cancelCore, hc] at hcanc
        rw [if_neg hcanc, hb1]
        have hk : k < b.items.length := by omega
        obtain ⟨hInv2, hstate2, hlen2⟩ := processItem_step cap proc b k now hInv hk
        obtain ⟨k2, h1, h2, h3, h4, h5⟩ :=
          ih (k + 1) (processItem cap proc b k now) hInv2 (by omega)
        refine ⟨k2, by omega, by omega, h3, by rw [h4, hlen2], ?_⟩
        intro hne
        obtain ⟨ha, hb⟩ := h5 hne
        exact ⟨by omega, by rw [hb, hstate2]⟩
    · rw [if_neg hcr]
      by_cases hcanc : b.state = BState.cancelled
      · rw [if_pos hcanc]
        exact ⟨k, Nat.le_refl k, by omega, hInv, rfl, fun hne => absurd hcanc hne⟩
      · rw [if_neg hcanc]
        have hk : k < b.items.length := by omega
        obtain ⟨hInv2, hstate2, hlen2⟩ := processItem_step cap proc b k now hInv hk
        obtain ⟨k2, h1, h2, h3, h4, h5⟩ :=
          ih (k + 1) (processItem cap proc b k now) hInv2 (by omega)
        refine ⟨k2, by omega, by omega, h3, by rw [h4, hlen2], ?_⟩
        intro hne
        obtain ⟨ha, hb⟩ := h5 hne
        exact ⟨by omega, by rw [hb, hstate2]⟩

/-- Running the loop with no external cancellation at all settles every
remaining item and leaves the job state untouched. -/
theorem runItems_noCancel (cap : Nat)
    (proc : String → Option RawItem → Nat → Except String String) (now : Nat) :
    ∀ (m k : Nat) (b : Batch), LoopInv cap b k → b.state = BState.processing →
      k + m ≤ b.items.length →
      LoopInv cap (runItems cap proc (fun _ => false) now b (List.range' k m)) (k + m)
        ∧ (runItems cap proc (fun _ => false) now b (List.range' k m)).state = BState.processing
        ∧ (runItems cap proc (fun _ => false) now b (List.range' k m)).items.length
            = b.items.length := by
  intro m
  induction m with
  | zero =>
    intro k b hInv hstate hlen
    exact ⟨hInv, hstate, rfl⟩
  | succ m ih =>
    intro k b hInv hstate hlen
    rw [show List.range' k (m + 1) = k :: List.range' (k + 1) m from List.range'_succ k m 1]
    simp only [runItems]
    rw [show (if false = true then (cancelCore b now).2 else b) = b by simp]
    rw [if_neg (by rw [hstate]; intro hcon; cases hcon)]
    have hk : k < b.items.length := by omega
    obtain ⟨hInv2, hstate2, hlen2⟩ := processItem_step cap proc b k now hInv hk
    obtain ⟨h1, h2, h3⟩ := ih (k + 1) (processItem cap proc b k now) hInv2
      (by rw [hstate2]; exact hstate) (by omega)
    refine ⟨by rw [show k + (m + 1) = k + 1 + m by omega]; exact h1, h2, by rw [h3, hlen2]⟩

/-- Running the loop with exactly one external cancellation request, landing
at the boundary before item `kc`: positions before `kc` settle, the rest are
never touched, and the run ends cancelled as soon as `kc` lies inside the
processed range. -/
theorem runItems_cancelAt (cap : Nat)
    (proc : String → Option RawItem → Nat → Except String String) (now kc : Nat) :
    ∀ (m k : Nat) (b : Batch), LoopInv cap b k → b.state = BState.processing →
      k + m ≤ b.items.length → k ≤ kc →
      (kc < k + m →
        LoopInv cap (runItems cap proc (fun j => j == kc) now b (List.range' k m)) kc
          ∧ (runItems cap proc (fun j => j == kc) now b (List.range' k m)).state
              = BState.cancelled
          ∧ (runItems cap proc (fun j => j == kc) now b (List.range' k m)).items.length
              = b.items.length)
      ∧ (k + m ≤ kc →
        LoopInv cap (runItems cap proc (fun j => j == kc) now b (List.range' k m)) (k + m)
          ∧ (runItems cap proc (fun j => j == kc) now b (List.range' k m)).state
              = BState.processing
          ∧ (runItems cap proc (fun j => j == kc) now b (List.range' k m)).items.length
              = b.items.length) := by
  intro m
  induction m with
  | zero =>
    intro k b hInv hstate hlen hkc
    exact ⟨fun hcon => by omega, fun _ => ⟨hInv, hstate, rfl⟩⟩
  | succ m ih =>
    intro k b hInv hstate hlen hkc
    rw [show List.range' k (m + 1) = k :: List.range' (k + 1) m from List.range'_succ k m 1]
    simp only [runItems]
    by_cases hk_eq : k = kc
    · subst hk_eq
      rw [if_pos (by simp : (k == k) = true)]
      have hcanc : ((cancelCore b now).2).state = BState.cancelled := by
        have hne : ¬(b.state = BState.completed ∨ b.state = BState.failed) := by
          rw [hstate]; rintro (hcon | hcon) <;> cases hcon
        simp [cancelCore, hne]
      rw [if_pos hcanc]
      constructor
      · intro _
        exact ⟨cancelCore_loopInv cap b k now hInv, hcanc,
          congrArg List.length (cancelCore_fields b now).1⟩
      · intro hcon; omega
    · rw [if_neg (by simp [hk_eq] : ¬ (k == kc) = true)]
      rw [if_neg (by rw [hstate]; intro hcon; cases hcon)]
      have hk : k < b.items.length := by omega
      obtain ⟨hInv2, hstate2, hlen2⟩ := processItem_step cap proc b k now hInv hk
      have hkc2 : k + 1 ≤ kc := by omega
      obtain ⟨hA, hB⟩ := ih (k + 1) (processItem cap proc b k now) hInv2
        (by rw [hstate2]; exact hstate) (by omega) hkc2
      constructor
      · intro hlt
        obtain ⟨h1, h2, h3⟩ := hA (by omega)
        exact ⟨h1, h2, by rw [h3, hlen2]⟩
      · intro hge
        obtain ⟨h1, h2, h3⟩ := hB (by omega)
        refine ⟨by rw [show k + (m + 1) = k + 1 + m by omega]; exact h1, h2, by rw [h3, hlen2]⟩

/-- `finalizeBatch` never touches the items, the counters or the result
collections, always stamps `completedAt`, keeps an externally set cancelled
state, and otherwise maps the settled counters to the final state. -/
theorem finalizeBatch_spec (b : Batch) (now : Nat) :
    (finalizeBatch b now).completedAt = some now
      ∧ (finalizeBatch b now).items = b.items
      ∧ (finalizeBatch b now).progress = b.progress
      ∧ (finalizeBatch b now).results = b.results
      ∧ (finalizeBatch b now).errors = b.errors
      ∧ (b.state = BState.cancelled → (finalizeBatch b now).state = BState.cancelled)
      ∧ (b.state ≠ BState.cancelled → b.progress.failed = 0 →
          (finalizeBatch b now).state = BState.completed)
      ∧ (b.state ≠ BState.cancelled → b.progress.failed ≠ 0 → b.progress.completed = 0 →
          (finalizeBatch b now).state = BState.failed)
      ∧ (b.state ≠ BState.cancelled → b.progress.failed ≠ 0 → b.progress.completed ≠ 0 →
          (finalizeBatch b now).state = BState.partialState) := by
  by_cases h1 : b.state = BState.cancelled
  · simp [finalizeBatch, h1]
  · by_cases h2 : b.progress.failed = 0
    · simp [finalizeBatch, h1, h2]
    · by_cases h3 : b.progress.completed = 0
      · simp [finalizeBatch, h1, h2, h3]
      · simp [finalizeBatch, h1, h2, h3]

/-- Unfolding `processBatch` on a pending job. -/
theorem processBatch_of_pending
    (proc : String → Option RawItem → Nat → Except String String)
    (cancelReq : Nat → Bool) (b : Batch) (now : Nat) (h : b.state = BState.pending) :
    processBatch proc cancelReq b now
      = Except.ok (finalizeBatch
          (if cancelReq b.items.length = true
            then (cancelCore (runItems 3 proc cancelReq now (beginProcessing b now)
                    (List.range b.items.length)) now).2
            else runItems 3 proc cancelReq now (beginProcessing b now)
                    (List.range b.items.length)) now) := by
  simp only [processBatch]
  rw [if_pos h]
  rfl

/-- `processBatch` rejects any job that is not pending. -/
theorem processBatch_of_not_pending
    (proc : String → Option RawItem → Nat → Except String String)
    (cancelReq : Nat → Bool) (b : Batch) (now : Nat) (h : b.state ≠ BState.pending) :
    processBatch proc cancelReq b now
      = Except.error ("Batch " ++ b.id ++ " is not in pending state") := by
  simp only [processBatch]
  rw [if_neg h]

/-- The loop invariant only looks at the items, the counters and the result
collections, so it transfers across operations preserving those. -/
theorem loopInv_congr (cap k : Nat) (b1 b2 : Batch)
    (hItems : b2.items = b1.items) (hProg : b2.progress = b1.progress)
    (hRes : b2.results = b1.results) (hErr : b2.errors = b1.errors)
    (h : LoopInv cap b1 k) : LoopInv cap b2 k := by
  refine ⟨?_, ?_, ?_, ?_, ?_, ?_, ?_⟩
  · rw [hItems]; exact h.k_le
  · intro i it hget hi
    rw [hItems] at hget
    exact h.settled i it hget hi
  · intro i it hget hi
    rw [hItems] at hget
    exact h.fresh i it hget hi
  · rw [hProg, hItems]; exact h.completed_eq
  · rw [hProg, hItems]; exact h.failed_eq
  · rw [hRes, hItems]; exact h.results_len
  · rw [hErr, hItems]; exact h.errors_len

/-- `createBatch` produces one item record per submitted element. -/
theorem createBatch_items_length (batchId : String) (now : Nat)
    (items : List RawItem) (operation : String) :
    (createBatch batchId now items operation).items.length = items.length := by
  simp [createBatch]

/-- The observation points of a job's lifetime: the job as `createBatch`
built it, plus every state obtained from an observation point by one of the
scheduler's mutation steps — moving to processing, an item start, an item
settlement, a progress recomputation, finalization, or an external
cancellation via `cancelBatch`. -/
inductive Observable : Batch → Prop where
  | created : ∀ batchId now items operation,
      Observable (createBatch batchId now items operation)
  | began : ∀ b now, Observable b → Observable (beginProcessing b now)
  | itemStarted : ∀ b i now, Observable b → Observable (startItem b i now)
  | itemCompleted : ∀ b i att r now, Observable b → Observable (completeItem b i att r now)
  | itemFailed : ∀ b i att e now, Observable b → Observable (failItem b i att e now)
  | progressed : ∀ b now, Observable b → Observable (updateProgress b now)
  | finalized : ∀ b now, Observable b → Observable (finalizeBatch b now)
  | wasCancelled : ∀ b now, Observable b → Observable ((cancelCore b now).2)

/-- **C1.** For every batch job and at every observation point in its
lifetime (after creation, after each item start, after each item terminal
outcome, after finalization — and likewise across the move to processing,
progress recomputations and external cancellations), the progress counters
partition the total: `completed + failed + pending + processing = total`,
and `total` equals the length of the job's `items` sequence. -/
theorem progress_partition_invariant (b : Batch) (h : Observable b) :
    progressPartition b := by
  induction h with
  | created batchId now items operation =>
    refine ⟨?_, ?_⟩
    · simp [createBatch]
    · simp [createBatch]
  | began b now _ ih => exact ⟨ih.1, ih.2⟩
  | itemStarted b i now _ ih =>
    rcases hget : b.items[i]? with _ | it
    · simpa [startItem, hget] using ih
    · obtain ⟨h1, h2⟩ := ih
      refine ⟨?_, ?_⟩
      · simp only [startItem, hget]
        omega
      · simp only [startItem, hget, List.length_set]
        exact h2
  | itemCompleted b i att r now _ ih =>
    rcases hget : b.items[i]? with _ | it
    · simpa [completeItem, hget] using ih
    · obtain ⟨h1, h2⟩ := ih
      refine ⟨?_, ?_⟩
      · simp only [completeItem, hget, updateProgress]
        omega
      · simp only [completeItem, hget, updateProgress, List.length_set]
        exact h2
  | itemFailed b i att e now _ ih =>
    rcases hget : b.items[i]? with _ | it
    · simpa [failItem, hget] using ih
    · obtain ⟨h1, h2⟩ := ih
      refine ⟨?_, ?_⟩
      · simp only [failItem, hget, updateProgress]
        omega
      · simp only [failItem, hget, updateProgress, List.length_set]
        exact h2
  | progressed b now _ ih => exact ⟨ih.1, ih.2⟩
  | finalized b now _ ih =>
    have hp : (finalizeBatch b now).progress = b.progress := (finalizeBatch_spec b now).2.2.1
    have hi : (finalizeBatch b now).items = b.items := (finalizeBatch_spec b now).2.1
    exact ⟨by rw [hp]; exact ih.1, by rw [hp, hi]; exact ih.2⟩
  | wasCancelled b now _ ih =>
    have hf := cancelCore_fields b now
    exact ⟨by rw [hf.2.1]; exact ih.1, by rw [hf.2.1, hf.1]; exact ih.2⟩

/-- Witness for C1: the invariant evaluated on a freshly created concrete
two-item job. -/
theorem progress_partition_invariant_witness :
    progressPartition (createBatch "batch_1_a" 0 [RawItem.str "s1", RawItem.str "s2"] "process") :=
  progress_partition_invariant _
    (Observable.created "batch_1_a" 0 [RawItem.str "s1", RawItem.str "s2"] "process")

/-- Every item of a batch satisfying the loop invariant at any boundary is
within the attempt cap and satisfies the result/error exclusivity. -/
theorem loopInv_all_items (cap : Nat) (b : Batch) (k : Nat) (h : LoopInv cap b k) :
    ∀ it ∈ b.items, it.attempts ≤ cap ∧ itemExcl it := by
  intro it hmem
  obtain ⟨n, hn⟩ := List.get_of_mem hmem
  have hget : b.items[n.1]? = some it := by
    rw [List.getElem?_eq_getElem n.2]
    simp [← hn, List.get_eq_getElem]
  by_cases hik : n.1 < k
  · obtain ⟨hterm, hatt, hcomp, hfail⟩ := h.settled n.1 it hget hik
    refine ⟨hatt, hcomp, hfail, ?_⟩
    rintro ⟨hnc, hnf⟩
    rcases hterm with hc | hf
    · exact absurd hc hnc
    · exact absurd hf hnf
  · obtain ⟨hst, hres, herr, hatt⟩ := h.fresh n.1 it hget (by omega)
    refine ⟨by omega, ?_, ?_, fun _ => ⟨hres, herr⟩⟩
    · intro hc; rw [hst] at hc; cases hc
    · intro hf; rw [hst] at hf; cases hf

/-- A prefix of `List.range n` is an initial range. -/
theorem range_split_prefix (n : Nat) (l1 l2 : List Nat)
    (h : List.range n = l1 ++ l2) :
    l1 = List.range' 0 l1.length ∧ l1.length ≤ n := by
  have hlen : l1.length + l2.length = n := by
    have hl := congrArg List.length h
    simpa using hl.symm
  have hle : l1.length ≤ n := by omega
  constructor
  · have htake : l1 = (List.range n).take l1.length := by
      rw [h, List.take_left]
    have h2 : (List.range n).take l1.length = List.range' 0 l1.length := by
      rw [List.take_range, Nat.min_eq_left hle, List.range_eq_range']
    rw [← h2]
    exact htake
  · exact hle

/-- The state of the loop after any number of iterations of a run started on
a freshly created job: the loop invariant holds at some boundary `k2`, the
item count is unchanged, and if the run has not been cancelled the boundary
is exactly the number of iterations performed, with the job still
processing. -/
theorem runItems_prefix_inv (cap : Nat)
    (proc : String → Option RawItem → Nat → Except String String)
    (cancelReq : Nat → Bool) (now : Nat)
    (batchId : String) (t : Nat) (items : List RawItem) (operation : String)
    (l1 l2 : List Nat) (hsplit : List.range items.length = l1 ++ l2) :
    ∃ k2, k2 ≤ items.length
      ∧ LoopInv cap (runItems cap proc cancelReq now
          (beginProcessing (createBatch batchId t items operation) now) l1) k2
      ∧ (runItems cap proc cancelReq now
          (beginProcessing (createBatch batchId t items operation) now) l1).items.length
          = items.length
      ∧ ((runItems cap proc cancelReq now
            (beginProcessing (createBatch batchId t items operation) now) l1).state
            ≠ BState.cancelled →
          k2 = l1.length
            ∧ (runItems cap proc cancelReq now
                (beginProcessing (createBatch batchId t items operation) now) l1).state
                = BState.processing) := by
  obtain ⟨hl1, hle⟩ := range_split_prefix items.length l1 l2 hsplit
  have hInv0 : LoopInv cap (beginProcessing (createBatch batchId t items operation) now) 0 :=
    beginProcessing_loopInv cap _ 0 now (createBatch_loopInv cap batchId t items operation)
  have hlen0 : (beginProcessing (createBatch batchId t items operation) now).items.length
      = items.length := createBatch_items_length batchId t items operation
  obtain ⟨k2, h1, h2, h3, h4, h5⟩ := runItems_inv cap proc cancelReq now l1.length 0
    (beginProcessing (createBatch batchId t items operation) now) hInv0 (by omega)
  rw [← hl1] at h3 h4 h5
  refine ⟨k2, by omega, h3, by rw [h4, hlen0], ?_⟩
  intro hne
  obtain ⟨ha, hb⟩ := h5 hne
  exact ⟨by omega, hb⟩

/-- **C4.** The backoff policy is a pure, deterministic function of the
1-indexed attempt number `n` that just failed: the slept delay is exactly
`2^n` seconds (2s, 4s, 8s for attempts 1, 2, 3, expressed here in the
milliseconds the code computes), and it is strictly monotone in `n`. -/
theorem backoff_policy_spec :
    (∀ n : Nat, backoffDelayMs n = 2 ^ n * 1000)
      ∧ backoffDelayMs 1 = 2 * 1000
      ∧ backoffDelayMs 2 = 4 * 1000
      ∧ backoffDelayMs 3 = 8 * 1000
      ∧ ∀ m n : Nat, m < n → backoffDelayMs m < backoffDelayMs n := by
  refine ⟨fun n => rfl, rfl, rfl, rfl, ?_⟩
  intro m n hmn
  have hpow : 2 ^ m < 2 ^ n := Nat.pow_lt_pow_right (by norm_num) hmn
  simp only [backoffDelayMs]
  omega

/-- Witness for C4: the monotonicity conjunct applied at the concrete
attempts 1 and 2, together with the concrete 2-second first delay. -/
theorem backoff_policy_spec_witness :
    backoffDelayMs 1 < backoffDelayMs 2 ∧ backoffDelayMs 1 = 2 * 1000 :=
  ⟨backoff_policy_spec.2.2.2.2 1 2 (by decide), backoff_policy_spec.2.1⟩

/-- **C10.** `cancelBatch` on a job id that is not in the store returns
`false` without raising anything (it is a total function here, mirroring the
early `return false` of the code) and leaves the store unchanged. -/
theorem cancel_missing_id_noop (s : Store) (batchId : String) (now : Nat)
    (h : storeGet s batchId = none) :
    cancelBatch s batchId now = (false, s) := by
  simp [cancelBatch, h]

/-- Witness for C10: cancelling an unknown id against the empty store. -/
theorem cancel_missing_id_noop_witness :
    cancelBatch [] "batch_missing" 7 = (false, []) :=
  cancel_missing_id_noop [] "batch_missing" 7 rfl

/-- **C2.** A batch created from `items` and driven to the end of its item
loop with no cancellation is finalized from the settled counts: if every
item ended completed the job ends `Completed` with `errors` empty; if every
item ended failed (and there is at least one item) the job ends `Failed`
with `results` empty; if at least one item succeeded and at least one failed
the job ends `Partial`. -/
theorem finalize_state_mapping
    (batchId : String) (t : Nat) (items : List RawItem) (operation : String)
    (proc : String → Option RawItem → Nat → Except String String) (now : Nat) (bf : Batch)
    (hb : processBatch proc (fun _ => false) (createBatch batchId t items operation) now
        = Except.ok bf) :
    ((∀ it ∈ bf.items, it.state = BState.completed) →
        bf.state = BState.completed ∧ bf.errors = [])
      ∧ ((∀ it ∈ bf.items, it.state = BState.failed) → bf.items ≠ [] →
        bf.state = BState.failed ∧ bf.results = [])
      ∧ ((∃ it ∈ bf.items, it.state = BState.completed) →
          (∃ it ∈ bf.items, it.state = BState.failed) →
        bf.state = BState.partialState) := by
  have hpend : (createBatch batchId t items operation).state = BState.pending := rfl
  rw [processBatch_of_pending proc (fun _ => false) _ now hpend] at hb
  simp only [Bool.false_eq_true, if_false, Except.ok.injEq] at hb
  rw [createBatch_items_length, List.range_eq_range'] at hb
  have hInv0 : LoopInv 3 (beginProcessing (createBatch batchId t items operation) now) 0 :=
    beginProcessing_loopInv 3 _ 0 now (createBatch_loopInv 3 batchId t items operation)
  have hlen0 : (beginProcessing (createBatch batchId t items operation) now).items.length
      = items.length := createBatch_items_length batchId t items operation
  obtain ⟨hInvN, hstateN, hlenN⟩ := runItems_noCancel 3 proc now items.length 0
    (beginProcessing (createBatch batchId t items operation) now) hInv0 rfl (by omega)
  set B2 := runItems 3 proc (fun _ => false) now
    (beginProcessing (createBatch batchId t items operation) now)
    (List.range' 0 items.length) with hB2def
  have hfin := finalizeBatch_spec B2 now
  have hbf_items : bf.items = B2.items := by rw [← hb]; exact hfin.2.1
  have hbf_results : bf.results = B2.results := by rw [← hb]; exact hfin.2.2.2.1
  have hbf_errors : bf.errors = B2.errors := by rw [← hb]; exact hfin.2.2.2.2.1
  have hB2nc : B2.state ≠ BState.cancelled := by rw [hstateN]; intro hcon; cases hcon
  refine ⟨?_, ?_, ?_⟩
  · intro hall
    have hcount : (B2.items.countP fun it => it.state == BState.failed) = 0 := by
      rw [List.countP_eq_zero]
      intro a hmem
      have := hall a (by rw [hbf_items]; exact hmem)
      simp [this]
    have hfailed0 : B2.progress.failed = 0 := by
      rw [hInvN.failed_eq, hcount]
      rfl
    constructor
    · rw [← hb]
      exact hfin.2.2.2.2.2.2.1 hB2nc hfailed0
    · rw [hbf_errors, ← List.length_eq_zero, hInvN.errors_len, hcount]
  · intro hall hne
    have hcountc : (B2.items.countP fun it => it.state == BState.completed) = 0 := by
      rw [List.countP_eq_zero]
      intro a hmem
      have := hall a (by rw [hbf_items]; exact hmem)
      simp [this]
    have hcountf : (B2.items.countP fun it => it.state == BState.failed)
        = B2.items.length := by
      rw [List.countP_eq_length]
      intro a hmem
      have := hall a (by rw [hbf_items]; exact hmem)
      simp [this]
    have hlen_pos : B2.items.length ≠ 0 := by
      intro hcon
      exact hne (by rw [hbf_items]; exact List.length_eq_zero.mp hcon)
    have hfailed : B2.progress.failed ≠ 0 := by
      rw [hInvN.failed_eq, hcountf]
      exact_mod_cast hlen_pos
    have hcompleted0 : B2.progress.completed = 0 := by
      rw [hInvN.completed_eq, hcountc]
      rfl
    constructor
    · rw [← hb]
      exact hfin.2.2.2.2.2.2.2.1 hB2nc hfailed hcompleted0
    · rw [hbf_results, ← List.length_eq_zero, hInvN.results_len, hcountc]
  · intro hexc hexf
    have hposc : 0 < B2.items.countP fun it => it.state == BState.completed := by
      rw [List.countP_pos_iff]
      obtain ⟨it, hmem, hit⟩ := hexc
      exact ⟨it, by rw [← hbf_items]; exact hmem, by simp [hit]⟩
    have hposf : 0 < B2.items.countP fun it => it.state == BState.failed := by
      rw [List.countP_pos_iff]
      obtain ⟨it, hmem, hit⟩ := hexf
      exact ⟨it, by rw [← hbf_items]; exact hmem, by simp [hit]⟩
    have hfailed : B2.progress.failed ≠ 0 := by
      rw [hInvN.failed_eq]
      have : (0:Int) < ((B2.items.countP fun it => it.state == BState.failed : Nat) : Int) := by
        exact_mod_cast hposf
      omega
    have hcompleted : B2.progress.completed ≠ 0 := by
      rw [hInvN.completed_eq]
      have : (0:Int) < ((B2.items.countP fun it => it.state == BState.completed : Nat) : Int) := by
        exact_mod_cast hposc
      omega
    rw [← hb]
    exact hfin.2.2.2.2.2.2.2.2 hB2nc hfailed hcompleted

/-- **C5.** Cancelling a job that is still pending yields a cancelled job
with zero items executed — every item still pending with zero attempts.
Cancelling mid-processing — a `cancelBatch` call landing while item `kc - 1`
is in flight, which the loop observes at boundary `kc` (`1 ≤ kc ≤ n`) —
yields a cancelled job in which every item strictly beyond the in-flight
item is still pending (with zero attempts) and every item at or before it is
in a terminal state. -/
theorem cancel_pending_and_midflight
    (batchId : String) (t tc : Nat) (items : List RawItem) (operation : String) :
    ((cancelCore (createBatch batchId t items operation) tc).1 = true
      ∧ ((cancelCore (createBatch batchId t items operation) tc).2).state = BState.cancelled
      ∧ ∀ it ∈ ((cancelCore (createBatch batchId t items operation) tc).2).items,
          it.state = BState.pending ∧ it.attempts = 0)
    ∧ ∀ (proc : String → Option RawItem → Nat → Except String String) (now kc : Nat)
        (bf : Batch), 1 ≤ kc → kc ≤ items.length →
        processBatch proc (fun j => j == kc) (createBatch batchId t items operation) now
          = Except.ok bf →
        bf.state = BState.cancelled
          ∧ ∀ i it, bf.items[i]? = some it →
              (i < kc → it.state = BState.completed ∨ it.state = BState.failed)
              ∧ (kc ≤ i → it.state = BState.pending ∧ it.attempts = 0) := by
  constructor
  · have hnc : ¬((createBatch batchId t items operation).state = BState.completed
        ∨ (createBatch batchId t items operation).state = BState.failed) := by
      rintro (hcon | hcon) <;> cases hcon
    refine ⟨by simp [cancelCore, hnc], by simp [cancelCore, hnc], ?_⟩
    intro it hmem
    rw [(cancelCore_fields (createBatch batchId t items operation) tc).1] at hmem
    have hf := createBatch_items_fresh batchId t items operation it hmem
    exact ⟨hf.1, hf.2.2.2⟩
  · intro proc now kc bf hkc1 hkcn hb
    rw [processBatch_of_pending proc _ _ now rfl] at hb
    rw [createBatch_items_length, List.range_eq_range'] at hb
    simp only [Except.ok.injEq] at hb
    have hInv0 : LoopInv 3 (beginProcessing (createBatch batchId t items operation) now) 0 :=
      beginProcessing_loopInv 3 _ 0 now (createBatch_loopInv 3 batchId t items operation)
    have hlen0 : (beginProcessing (createBatch batchId t items operation) now).items.length
        = items.length := createBatch_items_length batchId t items operation
    obtain ⟨hA, hB⟩ := runItems_cancelAt 3 proc now kc items.length 0
      (beginProcessing (createBatch batchId t items operation) now) hInv0 rfl (by omega)
      (by omega)
    set B2 := runItems 3 proc (fun j => j == kc) now
      (beginProcessing (createBatch batchId t items operation) now)
      (List.range' 0 items.length) with hB2def
    by_cases hcase : kc < items.length
    · obtain ⟨hInv2, hstate2, hlen2⟩ := hA (by omega)
      rw [if_neg (show ¬((items.length == kc) = true) by simp; omega)] at hb
      have hfin := finalizeBatch_spec B2 now
      have hbf_items : bf.items = B2.items := by rw [← hb]; exact hfin.2.1
      refine ⟨by rw [← hb]; exact hfin.2.2.2.2.2.1 hstate2, ?_⟩
      intro i it hget
      rw [hbf_items] at hget
      constructor
      · intro hik
        exact (hInv2.settled i it hget hik).1
      · intro hik
        obtain ⟨h1, h2, h3, h4⟩ := hInv2.fresh i it hget hik
        exact ⟨h1, h4⟩
    · have hkceq : kc = items.length := by omega
      obtain ⟨hInv2, hstate2, hlen2⟩ := hB (by omega)
      rw [if_pos (show (items.length == kc) = true by simp [hkceq])] at hb
      have hncB2 : ¬(B2.state = BState.completed ∨ B2.state = BState.failed) := by
        rw [hstate2]; rintro (hcon | hcon) <;> cases hcon
      have hcanc_state : ((cancelCore B2 now).2).state = BState.cancelled := by
        simp [cancelCore, hncB2]
      have hInv3 : LoopInv 3 ((cancelCore B2 now).2) (0 + items.length) :=
        cancelCore_loopInv 3 B2 (0 + items.length) now hInv2
      have hfin := finalizeBatch_spec ((cancelCore B2 now).2) now
      have hbf_items : bf.items = ((cancelCore B2 now).2).items := by
        rw [← hb]; exact hfin.2.1
      refine ⟨by rw [← hb]; exact hfin.2.2.2.2.2.1 hcanc_state, ?_⟩
      intro i it hget
      rw [hbf_items] at hget
      constructor
      · intro hik
        exact (hInv3.settled i it hget (by omega)).1
      · intro hik
        obtain ⟨h1, h2, h3, h4⟩ := hInv3.fresh i it hget (by omega)
        exact ⟨h1, h4⟩

/-- **C6.** The attempt counter never exceeds the configured retry cap
(default 3): the retry loop itself starts and ends within the cap whenever
it is entered within the cap (and only ever increments by one, so all
intermediate values are sandwiched by the two bounds), every loop-boundary
state of a run over a created job (under an arbitrary cancellation schedule)
has all items within the cap 3 used by `processBatch`, and so does the
finished job. -/
theorem attempts_never_exceed_cap :
    (∀ (cap a : Nat) (p : Nat → Except String String) (e : Option String), a ≤ cap →
        a ≤ (retryLoop cap p a e).1 ∧ (retryLoop cap p a e).1 ≤ cap)
      ∧ (∀ (batchId : String) (t : Nat) (items : List RawItem) (operation : String)
          (proc : String → Option RawItem → Nat → Except String String)
          (cancelReq : Nat → Bool) (now : Nat) (l1 l2 : List Nat),
          List.range items.length = l1 ++ l2 →
          ∀ it ∈ (runItems 3 proc cancelReq now
              (beginProcessing (createBatch batchId t items operation) now) l1).items,
            it.attempts ≤ 3)
      ∧ (∀ (batchId : String) (t : Nat) (items : List RawItem) (operation : String)
          (proc : String → Option RawItem → Nat → Except String String)
          (cancelReq : Nat → Bool) (now : Nat) (bf : Batch),
          processBatch proc cancelReq (createBatch batchId t items operation) now
            = Except.ok bf →
          ∀ it ∈ bf.items, it.attempts ≤ 3) := by
  refine ⟨fun cap a p e h => retryLoop_bounds cap p a e h, ?_, ?_⟩
  · intro batchId t items operation proc cancelReq now l1 l2 hsplit it hmem
    obtain ⟨k2, hk2, hInv, hlen, _⟩ :=
      runItems_prefix_inv 3 proc cancelReq now batchId t items operation l1 l2 hsplit
    exact (loopInv_all_items 3 _ k2 hInv it hmem).1
  · intro batchId t items operation proc cancelReq now bf hb
    rw [processBatch_of_pending proc _ _ now rfl] at hb
    rw [createBatch_items_length] at hb
    simp only [Except.ok.injEq] at hb
    obtain ⟨k2, hk2, hInv, hlen, _⟩ :=
      runItems_prefix_inv 3 proc cancelReq now batchId t items operation
        (List.range items.length) [] (by simp)
    set B2 := runItems 3 proc cancelReq now
      (beginProcessing (createBatch batchId t items operation) now)
      (List.range items.length) with hB2
    intro it hmem
    have hb3_items :
        (if cancelReq items.length = true then (cancelCore B2 now).2 else B2).items
          = B2.items := by
      by_cases hcr : cancelReq items.length = true
      · rw [if_pos hcr]; exact (cancelCore_fields B2 now).1
      · rw [if_neg hcr]
    have hbf_items : bf.items = B2.items := by
      rw [← hb, (finalizeBatch_spec _ now).2.1, hb3_items]
    rw [hbf_items] at hmem
    exact (loopInv_all_items 3 B2 k2 hInv it hmem).1

/-- **C7.** For every item of every batch job, at every observation point:
once the item's state is terminal exactly one of `result`/`error` is set
(`result` iff completed, `error` iff failed), and while the item is not
terminal both are null.  Stated for the items of a fresh job, for the items
at every loop boundary of a run (arbitrary cancellation schedule), for the
items of the mid-item state right after `startItem` (the state visible
during a processor call or a backoff sleep), and for the finished job. -/
theorem result_error_exclusivity :
    (∀ (batchId : String) (t : Nat) (items : List RawItem) (operation : String),
        ∀ it ∈ (createBatch batchId t items operation).items, itemExcl it)
      ∧ (∀ (batchId : String) (t : Nat) (items : List RawItem) (operation : String)
          (proc : String → Option RawItem → Nat → Except String String)
          (cancelReq : Nat → Bool) (now : Nat) (l1 l2 : List Nat),
          List.range items.length = l1 ++ l2 →
          ∀ it ∈ (runItems 3 proc cancelReq now
              (beginProcessing (createBatch batchId t items operation) now) l1).items,
            itemExcl it)
      ∧ (∀ (batchId : String) (t : Nat) (items : List RawItem) (operation : String)
          (proc : String → Option RawItem → Nat → Except String String)
          (cancelReq : Nat → Bool) (now : Nat) (l1 l2 : List Nat) (k : Nat),
          List.range items.length = l1 ++ k :: l2 →
          (runItems 3 proc cancelReq now
              (beginProcessing (createBatch batchId t items operation) now) l1).state
            ≠ BState.cancelled →
          ∀ it ∈ (startItem (runItems 3 proc cancelReq now
              (beginProcessing (createBatch batchId t items operation) now) l1) k now).items,
            itemExcl it)
      ∧ (∀ (batchId : String) (t : Nat) (items : List RawItem) (operation : String)
          (proc : String → Option RawItem → Nat → Except String String)
          (cancelReq : Nat → Bool) (now : Nat) (bf : Batch),
          processBatch proc cancelReq (createBatch batchId t items operation) now
            = Except.ok bf →
          ∀ it ∈ bf.items, itemExcl it) := by
  refine ⟨?_, ?_, ?_, ?_⟩
  · intro batchId t items operation it hmem
    obtain ⟨hst, hres, herr, hatt⟩ := createBatch_items_fresh batchId t items operation it hmem
    refine ⟨?_, ?_, fun _ => ⟨hres, herr⟩⟩
    · intro hc; rw [hst] at hc; cases hc
    · intro hf; rw [hst] at hf; cases hf
  · intro batchId t items operation proc cancelReq now l1 l2 hsplit it hmem
    obtain ⟨k2, hk2, hInv, hlen, _⟩ :=
      runItems_prefix_inv 3 proc cancelReq now batchId t items operation l1 l2 hsplit
    exact (loopInv_all_items 3 _ k2 hInv it hmem).2
  · intro batchId t items operation proc cancelReq now l1 l2 k hsplit hstate it hmem
    obtain ⟨k2, hk2, hInv, hlen, hproc⟩ :=
      runItems_prefix_inv 3 proc cancelReq now batchId t items operation l1 (k :: l2) hsplit
    obtain ⟨hk2eq, _⟩ := hproc hstate
    subst hk2eq
    set B := runItems 3 proc cancelReq now
      (beginProcessing (createBatch batchId t items operation) now) l1 with hBdef
    have hklen : l1.length + l2.length + 1 = items.length := by
      have hl := congrArg List.length hsplit
      simp at hl
      omega
    have hkval : k = l1.length := by
      have h1 : (List.range items.length)[l1.length]? = some l1.length :=
        List.getElem?_range (by omega)
      have h2 : (List.range items.length)[l1.length]? = some k := by
        rw [hsplit, List.getElem?_append_right (Nat.le_refl l1.length)]
        simp
      rw [h1] at h2
      exact (Option.some.inj h2).symm
    have hklt : k < B.items.length := by rw [hlen]; omega
    obtain ⟨itk, hitk⟩ : ∃ x, B.items[k]? = some x := ⟨_, List.getElem?_eq_getElem hklt⟩
    obtain ⟨hst, hres, herr, hatt⟩ := hInv.fresh k itk hitk (by omega)
    have hSitems : (startItem B k now).items
        = B.items.set k { itk with state := BState.processing, startedAt := some now } := by
      simp [startItem, hitk]
    rw [hSitems] at hmem
    obtain ⟨n, hn⟩ := List.get_of_mem hmem
    have hget : (B.items.set k
        { itk with state := BState.processing, startedAt := some now })[n.1]? = some it := by
      rw [List.getElem?_eq_getElem n.2]
      simp [← hn, List.get_eq_getElem]
    rw [List.getElem?_set] at hget
    by_cases hik : k = n.1
    · rw [if_pos hik, if_pos (by omega)] at hget
      obtain rfl := Option.some.inj hget
      refine ⟨?_, ?_, fun _ => ⟨hres, herr⟩⟩
      · intro hc; cases hc
      · intro hf; cases hf
    · rw [if_neg hik] at hget
      exact (loopInv_all_items 3 B l1.length hInv it (List.getElem?_mem hget)).2
  · intro batchId t items operation proc cancelReq now bf hb
    rw [processBatch_of_pending proc _ _ now rfl] at hb
    rw [createBatch_items_length] at hb
    simp only [Except.ok.injEq] at hb
    obtain ⟨k2, hk2, hInv, hlen, _⟩ :=
      runItems_prefix_inv 3 proc cancelReq now batchId t items operation
        (List.range items.length) [] (by simp)
    set B2 := runItems 3 proc cancelReq now
      (beginProcessing (createBatch batchId t items operation) now)
      (List.range items.length) with hB2
    intro it hmem
    have hb3_items :
        (if cancelReq items.length = true then (cancelCore B2 now).2 else B2).items
          = B2.items := by
      by_cases hcr : cancelReq items.length = true
      · rw [if_pos hcr]; exact (cancelCore_fields B2 now).1
      · rw [if_neg hcr]
    have hbf_items : bf.items = B2.items := by
      rw [← hb, (finalizeBatch_spec _ now).2.1, hb3_items]
    rw [hbf_items] at hmem
    exact (loopInv_all_items 3 B2 k2 hInv it hmem).2

/-- A processor that succeeds immediately on every item and attempt. -/
def procAllOk : String → Option RawItem → Nat → Except String String :=
  fun _ _ _ => Except.ok "done"

/-- A processor that fails every attempt of every item. -/
def procAllFail : String → Option RawItem → Nat → Except String String :=
  fun _ _ _ => Except.error "boom"

/-- A processor that succeeds on the item with id "good" and fails every
attempt of every other item. -/
def procMixed : String → Option RawItem → Nat → Except String String :=
  fun sid _ _ => if sid = "good" then Except.ok "done" else Except.error "boom"

/-- A throwaway fallback job for extracting `Except` payloads. -/
def demoFallbackBatch : Batch := createBatch "fallback" 0 [] "noop"

/-- A concrete one-item run in which the single item succeeds. -/
def demoOkBatch : Batch :=
  (processBatch procAllOk (fun _ => false)
      (createBatch "b_ok" 0 [RawItem.str "a"] "process") 1).toOption.getD demoFallbackBatch

/-- A concrete one-item run in which the single item exhausts its retries. -/
def demoFailBatch : Batch :=
  (processBatch procAllFail (fun _ => false)
      (createBatch "b_f" 0 [RawItem.str "a"] "process") 1).toOption.getD demoFallbackBatch

/-- The single item of `demoFailBatch`. -/
def demoFailItem0 : BatchItem := demoFailBatch.items.getD 0 (mkBatchItem 0 (RawItem.str "z"))

/-- A concrete two-item run with one success and one failure, finishing in
the `Partial` state. -/
def demoMixedBatch : Batch :=
  (processBatch procMixed (fun _ => false)
      (createBatch "b_mixed" 0 [RawItem.str "good", RawItem.str "bad"] "process") 1).toOption.getD
    demoFallbackBatch

/-- A concrete two-item run cancelled at the boundary after its first item. -/
def demoCancelBatch : Batch :=
  (processBatch procAllOk (fun j => j == 1)
      (createBatch "b_c" 0 [RawItem.str "x", RawItem.str "y"] "process") 2).toOption.getD
    demoFallbackBatch

/-- A freshly created job cancelled while still pending. -/
def demoPendingCancelled : Batch :=
  (cancelCore (createBatch "b_pend" 0 [RawItem.str "a"] "process") 3).2

/-- Witness for C2: the all-success conjunct evaluated on the concrete
one-item success run. -/
theorem finalize_state_mapping_witness :
    demoOkBatch.state = BState.completed ∧ demoOkBatch.errors = [] :=
  (finalize_state_mapping "b_ok" 0 [RawItem.str "a"] "process" procAllOk 1 demoOkBatch
    rfl).1 (by decide)

/-- Witness for C5: the pending-cancel conjunct and the mid-flight conjunct
evaluated on concrete jobs. -/
theorem cancel_pending_and_midflight_witness :
    ((cancelCore (createBatch "b_c" 0 [RawItem.str "x", RawItem.str "y"] "process") 5).2).state
        = BState.cancelled
      ∧ demoCancelBatch.state = BState.cancelled :=
  ⟨(cancel_pending_and_midflight "b_c" 0 5 [RawItem.str "x", RawItem.str "y"] "process").1.2.1,
    ((cancel_pending_and_midflight "b_c" 0 5 [RawItem.str "x", RawItem.str "y"] "process").2
      procAllOk 2 1 demoCancelBatch (by decide) (by decide) rfl).1⟩

/-- Witness for C6: the retry-loop bound at cap 3 from attempt 0, and the
finished-job bound on the concrete all-failure run's item. -/
theorem attempts_never_exceed_cap_witness :
    (retryLoop 3 (fun _ => Except.error "boom") 0 none).1 ≤ 3
      ∧ demoFailItem0.attempts ≤ 3 :=
  ⟨(attempts_never_exceed_cap.1 3 0 (fun _ => Except.error "boom") none (by decide)).2,
    attempts_never_exceed_cap.2.2 "b_f" 0 [RawItem.str "a"] "process" procAllFail
      (fun _ => false) 1 demoFailBatch rfl demoFailItem0 (by decide)⟩

/-- Witness for C7: exclusivity of the concrete failed item of the
all-failure run. -/
theorem result_error_exclusivity_witness : itemExcl demoFailItem0 :=
  result_error_exclusivity.2.2.2 "b_f" 0 [RawItem.str "a"] "process" procAllFail
    (fun _ => false) 1 demoFailBatch rfl demoFailItem0 (by decide)

/-- Counterexample to C8 as stated: `Partial` is a terminal state, yet
Cancel does change a partial job's state — `cancelBatch`'s guard only
checks `Completed` and `Failed`, so cancelling this concrete partial job
flips it to `Cancelled` and reports success. -/
theorem cancel_partial_counterexample :
    demoMixedBatch.state = BState.partialState
      ∧ (cancelCore demoMixedBatch 9).1 = true
      ∧ ((cancelCore demoMixedBatch 9).2).state = BState.cancelled :=
  ⟨rfl, rfl, rfl⟩

/-- **C8 (amended).** `Completed` and `Failed` are never left by any
operation: Cancel is a no-op on them and `processBatch` rejects every
non-pending job (finalization only runs inside `processBatch`); a
`Cancelled` job stays `Cancelled` under Cancel.  The amendment forced by the
counterexample: Cancel on a `Partial` job does transition it to `Cancelled`,
because `cancelBatch` only guards `Completed`/`Failed`. -/
theorem terminal_stability_amended :
    (∀ (b : Batch) (now : Nat), b.state = BState.completed ∨ b.state = BState.failed →
        cancelCore b now = (false, b))
      ∧ (∀ (b : Batch) (now : Nat), b.state = BState.cancelled →
          ((cancelCore b now).2).state = BState.cancelled)
      ∧ (∀ (b : Batch) (now : Nat)
          (proc : String → Option RawItem → Nat → Except String String)
          (cancelReq : Nat → Bool), b.state ≠ BState.pending →
          processBatch proc cancelReq b now
            = Except.error ("Batch " ++ b.id ++ " is not in pending state"))
      ∧ (∀ (b : Batch) (now : Nat), b.state = BState.partialState →
          (cancelCore b now).1 = true ∧ ((cancelCore b now).2).state = BState.cancelled) := by
  refine ⟨?_, ?_, ?_, ?_⟩
  · intro b now h
    unfold cancelCore
    rw [if_pos h]
  · intro b now h
    unfold cancelCore
    rw [if_neg (by rw [h]; rintro (hc | hc) <;> cases hc)]
  · intro b now proc cancelReq h
    exact processBatch_of_not_pending proc cancelReq b now h
  · intro b now h
    unfold cancelCore
    rw [if_neg (by rw [h]; rintro (hc | hc) <;> cases hc)]
    exact ⟨rfl, rfl⟩

/-- Witness for the amended C8: Cancel is a no-op on the concrete completed
run, and does flip the concrete partial run. -/
theorem terminal_stability_amended_witness :
    cancelCore demoOkBatch 5 = (false, demoOkBatch)
      ∧ (cancelCore demoMixedBatch 5).1 = true :=
  ⟨terminal_stability_amended.1 demoOkBatch 5 (Or.inl rfl),
    (terminal_stability_amended.2.2.2 demoMixedBatch 5 rfl).1⟩

/-- Counterexample to C9 as stated: cancelling a job that is still pending
leaves it in the terminal state `Cancelled` with `completedAt` still null —
`cancelBatch` never sets `completedAt`, and a pending-cancelled job never
reaches `finalizeBatch`. -/
theorem pending_cancel_completedAt_counterexample :
    demoPendingCancelled.state = BState.cancelled
      ∧ demoPendingCancelled.completedAt = none :=
  ⟨rfl, rfl⟩

/-- **C9 (amended).** A job whose terminal state is reached through
finalization has `completedAt` set: `finalizeBatch` always stamps it, so
every job returned by `processBatch` — Completed, Failed, Partial, or a
loop-observed Cancelled, under any cancellation schedule — carries a
non-null `completedAt`.  The amendment forced by the counterexample: a job
flipped to `Cancelled` by `cancelBatch` outside finalization — in particular
one cancelled while still `Pending`, which never finalizes — keeps
`completedAt` null. -/
theorem completedAt_on_finalize_amended :
    (∀ (b : Batch) (now : Nat), (finalizeBatch b now).completedAt = some now)
      ∧ (∀ (proc : String → Option RawItem → Nat → Except String String)
          (cancelReq : Nat → Bool) (b : Batch) (now : Nat) (bf : Batch),
          processBatch proc cancelReq b now = Except.ok bf → bf.completedAt = some now)
      ∧ (∀ (batchId : String) (t tc : Nat) (items : List RawItem) (operation : String),
          ((cancelCore (createBatch batchId t items operation) tc).2).completedAt = none) := by
  refine ⟨fun b now => (finalizeBatch_spec b now).1, ?_, ?_⟩
  · intro proc cancelReq b now bf hb
    by_cases hp : b.state = BState.pending
    · rw [processBatch_of_pending proc cancelReq b now hp] at hb
      simp only [Except.ok.injEq] at hb
      rw [← hb]
      exact (finalizeBatch_spec _ now).1
    · rw [processBatch_of_not_pending proc cancelReq b now hp] at hb
      cases hb
  · intro batchId t tc items operation
    rw [(cancelCore_fields (createBatch batchId t items operation) tc).2.2.2.2]
    rfl

/-- Witness for the amended C9: the concrete completed run carries its
finalization timestamp. -/
theorem completedAt_on_finalize_amended_witness :
    demoOkBatch.completedAt = some 1 :=
  completedAt_on_finalize_amended.2.1 procAllOk (fun _ => false)
    (createBatch "b_ok" 0 [RawItem.str "a"] "process") 1 demoOkBatch rfl

/-- **C3.** A create request whose `sessions` list is empty (or longer than
the maximum batch size 50) is rejected synchronously by the validation layer
with a non-empty error list — the spec's `InvalidArgument` — and no job is
stored: the endpoint returns the store exactly as it was. -/
theorem create_rejects_invalid_items (s : Store) (xs : List JVal)
    (batchId : String) (now : Nat)
    (h : xs.length = 0 ∨ 50 < xs.length) :
    (createEndpoint s (JVal.obj [("sessions", JVal.arr xs)]) batchId now).1
        = Except.error (validateBatchBody (JVal.obj [("sessions", JVal.arr xs)]))
      ∧ validateBatchBody (JVal.obj [("sessions", JVal.arr xs)]) ≠ []
      ∧ (createEndpoint s (JVal.obj [("sessions", JVal.arr xs)]) batchId now).2 = s := by
  have hget : jGet (JVal.obj [("sessions", JVal.arr xs)]) "sessions"
      = some (JVal.arr xs) := rfl
  have hopts : jGet (JVal.obj [("sessions", JVal.arr xs)]) "options" = none := rfl
  have hval : validateBatchBody (JVal.obj [("sessions", JVal.arr xs)])
      = (if xs.length < 1 then ["sessions must have at least 1 items"] else [])
        ++ (if xs.length > 50 then ["sessions must have at most 50 items"] else [])
        ++ xs.enum.flatMap
            (fun p => validateSessionElem p.2 ("sessions[" ++ toString p.1 ++ "]")) := by
    simp [validateBatchBody, validateSessions, validateOptions, hget, hopts, isJObject]
  have hne : validateBatchBody (JVal.obj [("sessions", JVal.arr xs)]) ≠ [] := by
    rw [hval]
    rcases h with h0 | h50
    · rw [if_pos (by omega)]
      simp
    · rw [if_neg (by omega), if_pos (by omega)]
      simp
  refine ⟨?_, hne, ?_⟩
  · cases hV : validateBatchBody (JVal.obj [("sessions", JVal.arr xs)]) with
    | nil => exact absurd hV hne
    | cons a l => simp [createEndpoint, hV]
  · cases hV : validateBatchBody (JVal.obj [("sessions", JVal.arr xs)]) with
    | nil => exact absurd hV hne
    | cons a l => simp [createEndpoint, hV]

/-- Witness for C3: the empty-session-list request against the empty store. -/
theorem create_rejects_invalid_items_witness :
    (createEndpoint [] (JVal.obj [("sessions", JVal.arr [])]) "b9" 0).1
        = Except.error (validateBatchBody (JVal.obj [("sessions", JVal.arr [])]))
      ∧ validateBatchBody (JVal.obj [("sessions", JVal.arr [])]) ≠ []
      ∧ (createEndpoint [] (JVal.obj [("sessions", JVal.arr [])]) "b9" 0).2 = [] :=
  create_rejects_invalid_items [] [] "b9" 0 (Or.inl rfl)

end Clueso
